import Mathlib

/-!
Verification of the server-rs thread pool (src/lib.rs) and its driver
(src/main.rs).

The development has two layers.

Structural layer: the ThreadPool and Worker records and the pure
functions ThreadPool.new, ThreadPool.execute and ThreadPool.drop mirror
the Rust items of the same names.  A Rust panic (a failed assert or
unwrap) is modelled by the RustOutcome.panicked constructor; teardown is
modelled by the list of actions the Drop impl for ThreadPool performs,
in order.

Operational layer: a small-step interleaving semantics Step over
SysState models the running pool: the mpsc channel is an unbounded FIFO
queue plus a sender-liveness flag (recv returns a job when the queue is
non-empty, blocks when the queue is empty but the sender is alive, and
reports closure exactly when the queue is empty and the sender has been
dropped), the mutex around the shared receiver is the lockHolder field,
and each worker thread is a phase machine mirroring the loop spawned in
Worker::new: waiting (about to call lock), receiving (holding the lock
inside recv), executing j (lock released, running the job), stopped
(broke out of the loop on closure), panicked (the job unwound and killed
the thread).

A Job in the source is an opaque boxed FnOnce closure; here it is a
record carrying an identity (to track delivery) and a flag recording
whether invoking the closure unwinds.
-/

/-- A submitted unit of work.  The id field names the submission; the
panics field records whether invoking the closure unwinds instead of
returning. -/
structure Job where
  id : Nat
  panics : Bool
deriving DecidableEq

/-- The state of the mpsc channel visible to the structural layer: the
pending jobs in FIFO order and whether the receiving half still exists
(it is kept alive by the worker threads for the lifetime of the pool). -/
structure ChanState where
  queue : List Job
  receiverAlive : Bool
deriving DecidableEq

/-- Outcome of running a piece of Rust code that may panic. -/
inductive RustOutcome (α : Type) where
  | ok (val : α)
  | panicked
deriving DecidableEq

/-- Mirrors Sender.send: succeeds (appending at the tail) while the
receiver is alive, and returns Err once the receiver has been dropped. -/
def chanSend (ch : ChanState) (j : Job) : Except Unit ChanState :=
  if ch.receiverAlive then Except.ok { ch with queue := ch.queue ++ [j] }
  else Except.error ()

/-- Mirrors the Rust struct Worker: an id and an optional join handle. -/
structure Worker where
  id : Nat
  thread : Option Unit
deriving DecidableEq

/-- Mirrors Worker.new: records the id and a live join handle (the loop
run by the spawned thread is modelled by the operational layer below). -/
def Worker.new (id : Nat) : Worker :=
  { id := id, thread := some () }

/-- Mirrors the Rust struct ThreadPool: a vector of workers and the
optional sending half of the channel. -/
structure ThreadPool where
  workers : List Worker
  sender : Option Unit
deriving DecidableEq

/-- Mirrors ThreadPool.new: assert that size is positive, create the
channel, spawn workers with ids 0 up to size - 1 in increasing order,
retain the sender.  A failed assert is a panic. -/
def ThreadPool.new (size : Nat) : RustOutcome (ThreadPool × ChanState) :=
  if 0 < size then
    RustOutcome.ok
      ({ workers := (List.range size).map Worker.new, sender := some () },
       { queue := [], receiverAlive := true })
  else RustOutcome.panicked

/-- Mirrors ThreadPool.execute, whose body unwraps the sender slot and
then unwraps the result of send.  The first unwrap panics when the
sender slot is empty (teardown has begun); the second panics when send
returns Err (receiver gone).  The method borrows the pool immutably, so
the pool itself is returned unchanged. -/
def ThreadPool.execute (p : ThreadPool) (ch : ChanState) (j : Job) :
    RustOutcome (ThreadPool × ChanState) :=
  match p.sender with
  | none => RustOutcome.panicked
  | some _ =>
    match chanSend ch j with
    | Except.error _ => RustOutcome.panicked
    | Except.ok chNew => RustOutcome.ok (p, chNew)

/-- One observable action of the Drop impl for ThreadPool. -/
inductive TeardownAction where
  | releaseSender
  | printShutdown (id : Nat)
  | joinThread (id : Nat)
deriving DecidableEq

/-- Mirrors the Drop impl for ThreadPool: take and drop the sender slot,
then for each worker in vector order print the shutdown message and,
when the join handle is still present, take it and join the thread
(joining blocks the tearing-down thread until that worker has
terminated).  Returns the emitted action sequence and the pool as left
by the drop body. -/
def ThreadPool.drop (p : ThreadPool) : List TeardownAction × ThreadPool :=
  ((match p.sender with
     | some _ => [TeardownAction.releaseSender]
     | none => []) ++
   p.workers.flatMap (fun w =>
     TeardownAction.printShutdown w.id ::
       (match w.thread with
        | some _ => [TeardownAction.joinThread w.id]
        | none => [])),
   { workers := p.workers.map (fun w => { w with thread := none }),
     sender := none })

/-- Tests whether a teardown action is the release of the sender. -/
def TeardownAction.isRelease : TeardownAction → Bool
  | TeardownAction.releaseSender => true
  | _ => false

/-- Tests whether a teardown action is a thread join. -/
def TeardownAction.isJoin : TeardownAction → Bool
  | TeardownAction.joinThread _ => true
  | _ => false

/-- Phase of one worker thread, following the loop in Worker.new. -/
inductive WPhase where
  | waiting
  | receiving
  | executing (j : Job)
  | stopped
  | panicked
deriving DecidableEq

/-- Global state of the running system: pool size, sender liveness, the
channel queue, the phase of each worker, the holder of the receiver
mutex, and histories of submitted jobs and of deliveries as pairs of a
worker id and a job id (logged when the worker obtains the job and
invokes it). -/
structure SysState where
  size : Nat
  senderAlive : Bool
  queue : List Job
  wphase : Nat → WPhase
  lockHolder : Option Nat
  submitted : List Job
  log : List (Nat × Nat)

/-- Pointwise update of the worker-phase map. -/
def updW (f : Nat → WPhase) (i : Nat) (v : WPhase) : Nat → WPhase :=
  fun k => if k = i then v else f k

/-- The state right after ThreadPool.new: empty queue, live sender, all
workers entering their loop, lock free, empty histories. -/
def initState (size : Nat) : SysState :=
  { size := size
    senderAlive := true
    queue := []
    wphase := fun _ => WPhase.waiting
    lockHolder := none
    submitted := []
    log := [] }

/-- One interleaved step of the system.
submit is ThreadPool.execute while the pool is alive;
dropSender is the drop of the taken sender slot, beginning teardown;
acquire is a waiting worker entering the lock call on the receiver;
recvOk is recv returning a job: the head is removed, the lock guard is
dropped at the end of the statement, and the worker starts executing
(the log records the delivery);
recvClosed is recv returning Err, which happens exactly when the queue
is empty and the sender has been dropped: the worker breaks out;
finishOk is the job returning, the worker looping back;
finishPanic is the job unwinding, which kills the worker thread. -/
inductive Step : SysState → SysState → Prop where
  | submit {s : SysState} (j : Job) (hs : s.senderAlive = true) :
      Step s { s with queue := s.queue ++ [j], submitted := s.submitted ++ [j] }
  | dropSender {s : SysState} (hs : s.senderAlive = true) :
      Step s { s with senderAlive := false }
  | acquire {s : SysState} (i : Nat) (hi : i < s.size)
      (hw : s.wphase i = WPhase.waiting) (hl : s.lockHolder = none) :
      Step s { s with wphase := updW s.wphase i WPhase.receiving,
                      lockHolder := some i }
  | recvOk {s : SysState} (i : Nat) (j : Job) (rest : List Job)
      (hi : i < s.size) (hw : s.wphase i = WPhase.receiving)
      (hl : s.lockHolder = some i) (hq : s.queue = j :: rest) :
      Step s { s with wphase := updW s.wphase i (WPhase.executing j),
                      lockHolder := none,
                      queue := rest,
                      log := s.log ++ [(i, j.id)] }
  | recvClosed {s : SysState} (i : Nat) (hi : i < s.size)
      (hw : s.wphase i = WPhase.receiving)
      (hl : s.lockHolder = some i) (hq : s.queue = [])
      (hs : s.senderAlive = false) :
      Step s { s with wphase := updW s.wphase i WPhase.stopped,
                      lockHolder := none }
  | finishOk {s : SysState} (i : Nat) (j : Job) (hi : i < s.size)
      (hw : s.wphase i = WPhase.executing j) (hp : j.panics = false) :
      Step s { s with wphase := updW s.wphase i WPhase.waiting }
  | finishPanic {s : SysState} (i : Nat) (j : Job) (hi : i < s.size)
      (hw : s.wphase i = WPhase.executing j) (hp : j.panics = true) :
      Step s { s with wphase := updW s.wphase i WPhase.panicked }

/-- Zero or more interleaved steps. -/
def Reaches (s t : SysState) : Prop :=
  Relation.ReflTransGen Step s t

/-- Teardown has fully completed: the sending capability is gone and
every worker thread has cleanly terminated, so every join in the drop
body has returned. -/
def TeardownComplete (s : SysState) : Prop :=
  s.senderAlive = false ∧ ∀ i, i < s.size → s.wphase i = WPhase.stopped

/-- The log entries belonging to worker i. -/
def logOf (s : SysState) (i : Nat) : List (Nat × Nat) :=
  s.log.filter (fun e => e.1 == i)

/-- The per-worker phase transitions the loop in Worker.new allows in
one system step (a worker untouched by the step keeps its phase). -/
def wTransB : WPhase → WPhase → Bool
  | WPhase.waiting, WPhase.waiting => true
  | WPhase.waiting, WPhase.receiving => true
  | WPhase.receiving, WPhase.receiving => true
  | WPhase.receiving, WPhase.executing _ => true
  | WPhase.receiving, WPhase.stopped => true
  | WPhase.executing j, WPhase.executing j2 => decide (j = j2)
  | WPhase.executing _, WPhase.waiting => true
  | WPhase.executing _, WPhase.panicked => true
  | WPhase.stopped, WPhase.stopped => true
  | WPhase.panicked, WPhase.panicked => true
  | _, _ => false

/-- The inductive invariant of the running system:
acct — the submission history splits as the deliveries so far followed
by the pending queue, in order;
stoppedDrained — a worker has stopped only if the sender is gone and the
queue is empty (closure is observed only on an empty queue with no
sender, and the queue can never grow again afterwards);
lockRecv — the receiver mutex is held by exactly the workers sitting
inside recv;
logBound — every delivery went to a worker of the pool. -/
structure SysInv (s : SysState) : Prop where
  acct : s.submitted.map Job.id = s.log.map Prod.snd ++ s.queue.map Job.id
  stoppedDrained : ∀ i, s.wphase i = WPhase.stopped →
    s.senderAlive = false ∧ s.queue = []
  lockRecv : ∀ i, s.lockHolder = some i ↔ s.wphase i = WPhase.receiving
  logBound : ∀ e ∈ s.log, e.1 < s.size

/-- One observable action of the driver in src/main.rs. -/
inductive DriverAction where
  | bindListener
  | newPool (size : Nat)
  | acceptConn (c : Nat)
  | submitJob (c : Nat)
  | printDriver
  | pool (a : TeardownAction)
deriving DecidableEq

/-- Tests whether a driver action accepts a connection. -/
def DriverAction.isAccept : DriverAction → Bool
  | DriverAction.acceptConn _ => true
  | _ => false

/-- Mirrors main in src/main.rs: bind the listener, build a pool of four
workers, then for each of the first two incoming connections (the
incoming iterator is limited by take 2) unwrap the stream, submit a
connection-handling job to the pool, and print; when the loop ends the
pool goes out of scope and its Drop impl runs before the process exits.
Connections are named by numbers; the trace lists the observable actions
in order.  If the pool assert failed the trace would end at the bind
(unreachable, since four is positive). -/
def mainTrace (conns : List Nat) : List DriverAction :=
  match ThreadPool.new 4 with
  | RustOutcome.panicked => [DriverAction.bindListener]
  | RustOutcome.ok (p, _) =>
    DriverAction.bindListener :: DriverAction.newPool 4 ::
      ((conns.take 2).flatMap (fun c =>
          [DriverAction.acceptConn c, DriverAction.submitJob c,
           DriverAction.printDriver]) ++
        (ThreadPool.drop p).1.map DriverAction.pool)

/-- A job used by concrete runs: id seven, returns normally. -/
def wjob : Job :=
  { id := 7, panics := false }

/-- A job used by concrete runs: id nine, unwinds when invoked. -/
def wpjob : Job :=
  { id := 9, panics := true }

/-- Concrete run, pool of one worker: the state after ThreadPool.new. -/
def ws0 : SysState :=
  initState 1

/-- Concrete run: one job has been submitted. -/
def ws1 : SysState :=
  { ws0 with queue := ws0.queue ++ [wjob], submitted := ws0.submitted ++ [wjob] }

/-- Concrete run: teardown has begun, the sender is dropped. -/
def ws2 : SysState :=
  { ws1 with senderAlive := false }

/-- Concrete run: worker zero has taken the receiver lock. -/
def ws3 : SysState :=
  { ws2 with wphase := updW ws2.wphase 0 WPhase.receiving, lockHolder := some 0 }

/-- Concrete run: recv delivered the job, the lock is released, worker
zero is executing. -/
def ws4 : SysState :=
  { ws3 with wphase := updW ws3.wphase 0 (WPhase.executing wjob),
             lockHolder := none,
             queue := [],
             log := ws3.log ++ [(0, wjob.id)] }

/-- Concrete run: the job returned, worker zero loops back. -/
def ws5 : SysState :=
  { ws4 with wphase := updW ws4.wphase 0 WPhase.waiting }

/-- Concrete run: worker zero holds the lock again. -/
def ws6 : SysState :=
  { ws5 with wphase := updW ws5.wphase 0 WPhase.receiving, lockHolder := some 0 }

/-- Concrete run: recv observed closure on the drained queue and worker
zero stopped. -/
def ws7 : SysState :=
  { ws6 with wphase := updW ws6.wphase 0 WPhase.stopped, lockHolder := none }

/-- A state whose single worker has stopped, used to instantiate
multi-step preservation statements. -/
def wsStop : SysState :=
  { size := 1
    senderAlive := false
    queue := []
    wphase := fun _ => WPhase.stopped
    lockHolder := none
    submitted := []
    log := [] }

/-- A state whose single worker is executing the unwinding job. -/
def wsExecP : SysState :=
  { size := 1
    senderAlive := true
    queue := []
    wphase := updW (fun _ => WPhase.waiting) 0 (WPhase.executing wpjob)
    lockHolder := none
    submitted := [wpjob]
    log := [(0, 9)] }

/-- A state whose single worker has died to an unwinding job. -/
def wsPan : SysState :=
  { size := 1
    senderAlive := true
    queue := []
    wphase := fun _ => WPhase.panicked
    lockHolder := none
    submitted := [wpjob]
    log := [(0, 9)] }

/-- The pool produced by ThreadPool.new 1. -/
def p1w : ThreadPool :=
  { workers := [Worker.new 0], sender := some () }

/-- The pool produced by ThreadPool.new 3. -/
def p3w : ThreadPool :=
  { workers := [Worker.new 0, Worker.new 1, Worker.new 2], sender := some () }

/-- The channel produced by ThreadPool.new. -/
def ch0w : ChanState :=
  { queue := [], receiverAlive := true }

/-- A pool whose sender has been released: teardown has begun. -/
def pDeadw : ThreadPool :=
  { workers := [{ id := 0, thread := none }], sender := none }

/-- The channel after every worker thread has terminated: the receiver,
owned solely by the worker-thread closures, has been dropped. -/
def chDeadw : ChanState :=
  { queue := [], receiverAlive := false }

/-- A step never changes the pool size. -/
theorem step_size {s t : SysState} (h : Step s t) : t.size = s.size := by
  cases h <;> rfl

/-- Any number of steps never changes the pool size. -/
theorem reaches_size {s t : SysState} (h : Relation.ReflTransGen Step s t) :
    t.size = s.size := by
  induction h with
  | refl => rfl
  | tail _ hst ih => rw [step_size hst, ih]

/-- The initial state satisfies the invariant. -/
theorem init_sysInv (size : Nat) : SysInv (initState size) := by
  refine ⟨rfl, ?_, ?_, ?_⟩
  · intro i h
    simp [initState] at h
  · intro i
    simp [initState]
  · intro e he
    simp [initState] at he

/-- One step preserves the invariant. -/
theorem step_sysInv {s t : SysState} (h : Step s t) (hI : SysInv s) : SysInv t := by
  cases h with
  | submit j hs =>
    refine ⟨?_, ?_, hI.lockRecv, hI.logBound⟩
    · simp [hI.acct, List.append_assoc]
    · intro i hstop
      have h2 := (hI.stoppedDrained i hstop).1
      rw [hs] at h2
      simp at h2
  | dropSender hs =>
    refine ⟨hI.acct, ?_, hI.lockRecv, hI.logBound⟩
    · intro i hstop
      have h2 := (hI.stoppedDrained i hstop).1
      rw [hs] at h2
      simp at h2
  | acquire i hi hw hl =>
    refine ⟨hI.acct, ?_, ?_, hI.logBound⟩
    · intro k hstop
      by_cases hk : k = i
      · subst hk
        simp [updW] at hstop
      · have h2 : s.wphase k = WPhase.stopped := by
          simpa [updW, hk] using hstop
        exact hI.stoppedDrained k h2
    · intro k
      constructor
      · intro hik
        have hik2 : i = k := by
          injection hik
        subst hik2
        simp [updW]
      · intro hrec
        by_cases hk : k = i
        · subst hk
          rfl
        · have h2 : s.wphase k = WPhase.receiving := by
            simpa [updW, hk] using hrec
          have h3 := (hI.lockRecv k).mpr h2
          rw [hl] at h3
          simp at h3
  | recvOk i j rest hi hw hl hq =>
    refine ⟨?_, ?_, ?_, ?_⟩
    · rw [hI.acct, hq]
      simp
    · intro k hstop
      by_cases hk : k = i
      · subst hk
        simp [updW] at hstop
      · have h2 : s.wphase k = WPhase.stopped := by
          simpa [updW, hk] using hstop
        have h3 := (hI.stoppedDrained k h2).2
        rw [hq] at h3
        simp at h3
    · intro k
      constructor
      · intro h2
        simp at h2
      · intro hrec
        by_cases hk : k = i
        · subst hk
          simp [updW] at hrec
        · have h2 : s.wphase k = WPhase.receiving := by
            simpa [updW, hk] using hrec
          have h3 := (hI.lockRecv k).mpr h2
          rw [hl] at h3
          have h4 : i = k := by
            injection h3
          exact absurd h4.symm hk
    · intro e he
      rcases List.mem_append.mp he with h1 | h1
      · exact hI.logBound e h1
      · have h2 : e = (i, j.id) := by
          simpa using h1
        rw [h2]
        exact hi
  | recvClosed i hi hw hl hq hs =>
    refine ⟨hI.acct, ?_, ?_, hI.logBound⟩
    · intro k _
      exact ⟨hs, hq⟩
    · intro k
      constructor
      · intro h2
        simp at h2
      · intro hrec
        by_cases hk : k = i
        · subst hk
          simp [updW] at hrec
        · have h2 : s.wphase k = WPhase.receiving := by
            simpa [updW, hk] using hrec
          have h3 := (hI.lockRecv k).mpr h2
          rw [hl] at h3
          have h4 : i = k := by
            injection h3
          exact absurd h4.symm hk
  | finishOk i j hi hw hp =>
    refine ⟨hI.acct, ?_, ?_, hI.logBound⟩
    · intro k hstop
      by_cases hk : k = i
      · subst hk
        simp [updW] at hstop
      · have h2 : s.wphase k = WPhase.stopped := by
          simpa [updW, hk] using hstop
        exact hI.stoppedDrained k h2
    · intro k
      by_cases hk : k = i
      · subst hk
        constructor
        · intro h2
          have h3 := (hI.lockRecv k).mp h2
          rw [hw] at h3
          simp at h3
        · intro hrec
          simp [updW] at hrec
      · constructor
        · intro h2
          have h3 := (hI.lockRecv k).mp h2
          simpa [updW, hk] using h3
        · intro hrec
          have h2 : s.wphase k = WPhase.receiving := by
            simpa [updW, hk] using hrec
          exact (hI.lockRecv k).mpr h2
  | finishPanic i j hi hw hp =>
    refine ⟨hI.acct, ?_, ?_, hI.logBound⟩
    · intro k hstop
      by_cases hk : k = i
      · subst hk
        simp [updW] at hstop
      · have h2 : s.wphase k = WPhase.stopped := by
          simpa [updW, hk] using hstop
        exact hI.stoppedDrained k h2
    · intro k
      by_cases hk : k = i
      · subst hk
        constructor
        · intro h2
          have h3 := (hI.lockRecv k).mp h2
          rw [hw] at h3
          simp at h3
        · intro hrec
          simp [updW] at hrec
      · constructor
        · intro h2
          have h3 := (hI.lockRecv k).mp h2
          simpa [updW, hk] using h3
        · intro hrec
          have h2 : s.wphase k = WPhase.receiving := by
            simpa [updW, hk] using hrec
          exact (hI.lockRecv k).mpr h2

/-- Every state reachable from a fresh pool satisfies the invariant. -/
theorem reach_sysInv {size : Nat} {s : SysState}
    (h : Reaches (initState size) s) : SysInv s := by
  induction h with
  | refl => exact init_sysInv size
  | tail _ hst ih => exact step_sysInv hst ih

/-- A worker that is neither waiting, nor inside recv, nor executing is
untouched by any step: its phase and its delivery log are frozen. -/
theorem step_frozen {s t : SysState} (h : Step s t) (i : Nat)
    (hw : s.wphase i ≠ WPhase.waiting) (hr : s.wphase i ≠ WPhase.receiving)
    (he : ∀ j, s.wphase i ≠ WPhase.executing j) :
    t.wphase i = s.wphase i ∧ logOf t i = logOf s i := by
  cases h with
  | submit j hs => exact ⟨rfl, rfl⟩
  | dropSender hs => exact ⟨rfl, rfl⟩
  | acquire i2 hi hw2 hl =>
    have hne : i ≠ i2 := by
      intro hEq
      rw [hEq, hw2] at hw
      exact hw rfl
    exact ⟨by simp [updW, hne], rfl⟩
  | recvOk i2 j rest hi hw2 hl hq =>
    have hne : i ≠ i2 := by
      intro hEq
      rw [hEq, hw2] at hr
      exact hr rfl
    constructor
    · simp [updW, hne]
    · simp [logOf, List.filter_append, Ne.symm hne]
  | recvClosed i2 hi hw2 hl hq hs =>
    have hne : i ≠ i2 := by
      intro hEq
      rw [hEq, hw2] at hr
      exact hr rfl
    exact ⟨by simp [updW, hne], rfl⟩
  | finishOk i2 j hi hw2 hp =>
    have hne : i ≠ i2 := by
      intro hEq
      rw [hEq, hw2] at he
      exact he j rfl
    exact ⟨by simp [updW, hne], rfl⟩
  | finishPanic i2 j hi hw2 hp =>
    have hne : i ≠ i2 := by
      intro hEq
      rw [hEq, hw2] at he
      exact he j rfl
    exact ⟨by simp [updW, hne], rfl⟩

/-- Once a worker has stopped it stays stopped and obtains no further
jobs, over any number of steps. -/
theorem steps_stopped_frozen {s t : SysState}
    (h : Relation.ReflTransGen Step s t) (i : Nat)
    (hstop : s.wphase i = WPhase.stopped) :
    t.wphase i = WPhase.stopped ∧ logOf t i = logOf s i := by
  induction h with
  | refl => exact ⟨hstop, rfl⟩
  | tail _ hbc ih =>
    obtain ⟨h1, h2⟩ := ih
    have h3 := step_frozen hbc i (by rw [h1]; simp) (by rw [h1]; simp)
      (by intro j; rw [h1]; simp)
    exact ⟨by rw [h3.1]; exact h1, by rw [h3.2]; exact h2⟩

/-- Once a worker thread has died to an unwinding job it stays dead and
obtains no further jobs, over any number of steps. -/
theorem steps_panicked_frozen {s t : SysState}
    (h : Relation.ReflTransGen Step s t) (i : Nat)
    (hpan : s.wphase i = WPhase.panicked) :
    t.wphase i = WPhase.panicked ∧ logOf t i = logOf s i := by
  induction h with
  | refl => exact ⟨hpan, rfl⟩
  | tail _ hbc ih =>
    obtain ⟨h1, h2⟩ := ih
    have h3 := step_frozen hbc i (by rw [h1]; simp) (by rw [h1]; simp)
      (by intro j; rw [h1]; simp)
    exact ⟨by rw [h3.1]; exact h1, by rw [h3.2]; exact h2⟩

/-- The allowed-transition test is reflexive. -/
theorem wTransB_refl (ph : WPhase) : wTransB ph ph = true := by
  cases ph <;> simp [wTransB]

/-- Every step moves every worker along an edge of the loop in
Worker.new (or leaves its phase unchanged). -/
theorem step_wTrans {s t : SysState} (h : Step s t) (i : Nat) :
    wTransB (s.wphase i) (t.wphase i) = true := by
  cases h with
  | submit j hs => exact wTransB_refl _
  | dropSender hs => exact wTransB_refl _
  | acquire i2 hi hw hl =>
    by_cases hk : i = i2
    · subst hk
      show wTransB (s.wphase i) (updW s.wphase i WPhase.receiving i) = true
      simp [updW, hw, wTransB]
    · show wTransB (s.wphase i) (updW s.wphase i2 WPhase.receiving i) = true
      simp only [updW, if_neg hk]
      exact wTransB_refl _
  | recvOk i2 j rest hi hw hl hq =>
    by_cases hk : i = i2
    · subst hk
      show wTransB (s.wphase i) (updW s.wphase i (WPhase.executing j) i) = true
      simp [updW, hw, wTransB]
    · show wTransB (s.wphase i) (updW s.wphase i2 (WPhase.executing j) i) = true
      simp only [updW, if_neg hk]
      exact wTransB_refl _
  | recvClosed i2 hi hw hl hq hs =>
    by_cases hk : i = i2
    · subst hk
      show wTransB (s.wphase i) (updW s.wphase i WPhase.stopped i) = true
      simp [updW, hw, wTransB]
    · show wTransB (s.wphase i) (updW s.wphase i2 WPhase.stopped i) = true
      simp only [updW, if_neg hk]
      exact wTransB_refl _
  | finishOk i2 j hi hw hp =>
    by_cases hk : i = i2
    · subst hk
      show wTransB (s.wphase i) (updW s.wphase i WPhase.waiting i) = true
      simp [updW, hw, wTransB]
    · show wTransB (s.wphase i) (updW s.wphase i2 WPhase.waiting i) = true
      simp only [updW, if_neg hk]
      exact wTransB_refl _
  | finishPanic i2 j hi hw hp =>
    by_cases hk : i = i2
    · subst hk
      show wTransB (s.wphase i) (updW s.wphase i WPhase.panicked i) = true
      simp [updW, hw, wTransB]
    · show wTransB (s.wphase i) (updW s.wphase i2 WPhase.panicked i) = true
      simp only [updW, if_neg hk]
      exact wTransB_refl _

/-- The per-worker drop actions over freshly spawned workers: one print
and one join per id, in list order. -/
theorem flatMap_new_workers (ids : List Nat) :
    (ids.map Worker.new).flatMap (fun w =>
      TeardownAction.printShutdown w.id ::
        (match w.thread with
         | some _ => [TeardownAction.joinThread w.id]
         | none => [])) =
    ids.flatMap (fun i =>
      [TeardownAction.printShutdown i, TeardownAction.joinThread i]) := by
  induction ids with
  | nil => rfl
  | cons a l ih => simp [List.flatMap_cons, Worker.new, ih]

/-- Print-and-join sequences contain no sender release. -/
theorem filter_isRelease_flatMap (ids : List Nat) :
    (ids.flatMap (fun i =>
      [TeardownAction.printShutdown i, TeardownAction.joinThread i])).filter
        TeardownAction.isRelease = [] := by
  induction ids with
  | nil => rfl
  | cons a l ih =>
    simp [List.flatMap_cons, List.filter_append, List.filter_cons,
      TeardownAction.isRelease, ih]

/-- The joins of a print-and-join sequence, in order. -/
theorem filter_isJoin_flatMap (ids : List Nat) :
    (ids.flatMap (fun i =>
      [TeardownAction.printShutdown i, TeardownAction.joinThread i])).filter
        TeardownAction.isJoin = ids.map TeardownAction.joinThread := by
  induction ids with
  | nil => rfl
  | cons a l ih =>
    simp [List.flatMap_cons, List.filter_append, List.filter_cons,
      TeardownAction.isJoin, ih]

/-- C2.  Dropping a constructed pool first releases the sending
capability, exactly once, and only then joins the workers, one join per
worker, in increasing id order (the order in which ThreadPool.new pushed
them); afterwards the sender slot is empty. -/
theorem drop_releases_sender_once_then_joins_in_id_order :
    ∀ (size : Nat) (p : ThreadPool) (ch : ChanState),
      ThreadPool.new size = RustOutcome.ok (p, ch) →
      (ThreadPool.drop p).1 =
        TeardownAction.releaseSender ::
          (List.range size).flatMap (fun i =>
            [TeardownAction.printShutdown i, TeardownAction.joinThread i]) ∧
      ((ThreadPool.drop p).1.filter TeardownAction.isRelease).length = 1 ∧
      (ThreadPool.drop p).1.filter TeardownAction.isJoin =
        (List.range size).map TeardownAction.joinThread ∧
      (ThreadPool.drop p).2.sender = none := by
  intro size p ch hnew
  by_cases hpos : 0 < size
  · rw [ThreadPool.new, if_pos hpos] at hnew
    injection hnew with h
    injection h with h1 h2
    subst h1
    have hacts : (ThreadPool.drop
        { workers := (List.range size).map Worker.new, sender := some () }).1 =
        TeardownAction.releaseSender ::
          (List.range size).flatMap (fun i =>
            [TeardownAction.printShutdown i, TeardownAction.joinThread i]) := by
      simp [ThreadPool.drop, flatMap_new_workers]
    refine ⟨hacts, ?_, ?_, rfl⟩
    · rw [hacts]
      simp [List.filter_cons, TeardownAction.isRelease, filter_isRelease_flatMap]
    · rw [hacts]
      simp [List.filter_cons, TeardownAction.isJoin, filter_isJoin_flatMap]
  · rw [ThreadPool.new, if_neg hpos] at hnew
    exact RustOutcome.noConfusion hnew

/-- C3, amended.  Execute has no failure mode provided the pool is
alive (its sender slot is still occupied) and the receiving half of the
channel still exists: both unwraps then succeed and the job is appended
at the tail of the queue, the pool unchanged; a freshly constructed
pool satisfies both conditions.  The receiver-alive condition cannot be
dropped from the frozen claim: the receiver built in ThreadPool.new is
owned solely by the worker threads, so once every worker thread has
died to an unwinding job, send returns Err and the second unwrap panics
even though teardown has not begun. -/
theorem execute_cannot_fail_while_pool_alive :
    (∀ (size : Nat) (p : ThreadPool) (ch : ChanState),
       ThreadPool.new size = RustOutcome.ok (p, ch) →
       p.sender = some () ∧ ch.receiverAlive = true) ∧
    (∀ (p : ThreadPool) (ch : ChanState) (j : Job),
       p.sender = some () → ch.receiverAlive = true →
       ThreadPool.execute p ch j =
         RustOutcome.ok (p, { ch with queue := ch.queue ++ [j] })) := by
  constructor
  · intro size p ch hnew
    by_cases hpos : 0 < size
    · rw [ThreadPool.new, if_pos hpos] at hnew
      injection hnew with h
      injection h with h1 h2
      subst h1
      subst h2
      exact ⟨rfl, rfl⟩
    · rw [ThreadPool.new, if_neg hpos] at hnew
      exact RustOutcome.noConfusion hnew
  · intro p ch j hs hr
    simp [ThreadPool.execute, chanSend, hs, hr]

/-- C3, counterexample to the frozen claim: a pool that has been
constructed and has not begun teardown — its sender slot is still
occupied — on which execute nevertheless fails.  Every worker thread of
this pool has died, so the jointly owned receiver is gone; send returns
Err and the second unwrap panics, while the claim as frozen promises no
failure mode for any alive pool. -/
theorem execute_panics_with_dead_receiver_counterexample :
    p1w.sender = some () ∧
    ThreadPool.execute p1w chDeadw wjob = RustOutcome.panicked :=
  ⟨rfl, rfl⟩

/-- C5.  For positive size, construction succeeds and yields exactly
size workers whose ids are 0 up to size - 1 in increasing order; no
operation changes the worker count or an id: execute returns the pool
unchanged, the drop body keeps every worker and its id (only taking the
join handles), and no step of the running system changes the size. -/
theorem new_makes_size_workers_stable_ids :
    (∀ size : Nat, 0 < size →
       ∃ pc, ThreadPool.new size = RustOutcome.ok pc) ∧
    (∀ (size : Nat) (p : ThreadPool) (ch : ChanState),
       ThreadPool.new size = RustOutcome.ok (p, ch) →
       p.workers.length = size ∧
       p.workers.map Worker.id = List.range size ∧
       (∀ ch2 j q, ThreadPool.execute p ch2 j = RustOutcome.ok q →
          q.1.workers = p.workers) ∧
       (ThreadPool.drop p).2.workers.map Worker.id =
         p.workers.map Worker.id) ∧
    (∀ s t : SysState, Step s t → t.size = s.size) := by
  refine ⟨?_, ?_, fun s t h => step_size h⟩
  · intro size h
    exact ⟨_, by rw [ThreadPool.new, if_pos h]⟩
  · intro size p ch hnew
    by_cases hpos : 0 < size
    · rw [ThreadPool.new, if_pos hpos] at hnew
      injection hnew with h
      injection h with h1 h2
      subst h1
      have hmap : ∀ ids : List Nat, (ids.map Worker.new).map Worker.id = ids := by
        intro ids
        induction ids with
        | nil => rfl
        | cons a l ih => simp [Worker.new, ih]
      have hmap2 : ∀ ws : List Worker,
          (ws.map (fun w => { w with thread := none })).map Worker.id =
            ws.map Worker.id := by
        intro ws
        induction ws with
        | nil => rfl
        | cons a l ih => simp [ih]
      refine ⟨by simp, hmap (List.range size), ?_, hmap2 _⟩
      intro ch2 j q hq
      simp only [ThreadPool.execute] at hq
      split at hq
      · exact RustOutcome.noConfusion hq
      · injection hq with h3
        rw [← h3]
    · rw [ThreadPool.new, if_neg hpos] at hnew
      exact RustOutcome.noConfusion hnew

/-- C7.  Constructing a pool of size zero fails the assert and panics,
producing no pool; for every positive size the assert passes and the
returned pool accepts submissions (execute succeeds on the channel the
construction returned). -/
theorem new_zero_is_fatal_new_positive_ready :
    ThreadPool.new 0 = RustOutcome.panicked ∧
    (∀ size : Nat, 0 < size → ∃ pc, ThreadPool.new size = RustOutcome.ok pc) ∧
    (∀ (size : Nat) (p : ThreadPool) (ch : ChanState) (j : Job),
       ThreadPool.new size = RustOutcome.ok (p, ch) →
       ThreadPool.execute p ch j =
         RustOutcome.ok (p, { ch with queue := ch.queue ++ [j] })) := by
  refine ⟨rfl, ?_, ?_⟩
  · intro size h
    exact ⟨_, by rw [ThreadPool.new, if_pos h]⟩
  · intro size p ch j hnew
    by_cases hpos : 0 < size
    · rw [ThreadPool.new, if_pos hpos] at hnew
      injection hnew with h
      injection h with h1 h2
      subst h1
      subst h2
      simp [ThreadPool.execute, chanSend]
    · rw [ThreadPool.new, if_neg hpos] at hnew
      exact RustOutcome.noConfusion hnew

/-- C8.  Once teardown has begun the sender slot is empty (the drop body
empties it), and calling execute then panics at the first unwrap: it is
a fatal condition, not a silent no-op and not a returned error value
(execute never returns ok in that state). -/
theorem execute_after_teardown_panics :
    (∀ p : ThreadPool, (ThreadPool.drop p).2.sender = none) ∧
    (∀ (p : ThreadPool) (ch : ChanState) (j : Job),
       p.sender = none →
       ThreadPool.execute p ch j = RustOutcome.panicked ∧
       ∀ q, ThreadPool.execute p ch j ≠ RustOutcome.ok q) := by
  constructor
  · intro p
    rfl
  · intro p ch j hs
    have h1 : ThreadPool.execute p ch j = RustOutcome.panicked := by
      simp [ThreadPool.execute, hs]
    refine ⟨h1, ?_⟩
    intro q hq
    rw [h1] at hq
    exact RustOutcome.noConfusion hq

/-- Accept actions inside the per-connection blocks of the driver loop:
one accept per connection, in order. -/
theorem filter_isAccept_conns (cs : List Nat) :
    (cs.flatMap (fun c =>
      [DriverAction.acceptConn c, DriverAction.submitJob c,
       DriverAction.printDriver])).filter DriverAction.isAccept =
      cs.map DriverAction.acceptConn := by
  induction cs with
  | nil => rfl
  | cons a l ih =>
    simp [List.flatMap_cons, List.filter_append, List.filter_cons,
      DriverAction.isAccept, ih]

/-- Pool teardown actions accept no connection. -/
theorem filter_isAccept_pool (acts : List TeardownAction) :
    (acts.map DriverAction.pool).filter DriverAction.isAccept = [] := by
  induction acts with
  | nil => rfl
  | cons a l ih => simp [List.filter_cons, DriverAction.isAccept, ih]

/-- C10.  When at least two connections arrive, main accepts exactly the
first two, submits one job to the size-four pool per accepted
connection, and only afterwards runs the pool drop (release, then print
and join for workers 0,1,2,3) before the process exits; the accepted
connections are exactly the first two, so anything after the second is
never accepted. -/
theorem main_accepts_two_connections_then_drops_pool :
    ∀ conns : List Nat, 2 ≤ conns.length →
      mainTrace conns =
        DriverAction.bindListener :: DriverAction.newPool 4 ::
          ((conns.take 2).flatMap (fun c =>
              [DriverAction.acceptConn c, DriverAction.submitJob c,
               DriverAction.printDriver]) ++
            (TeardownAction.releaseSender ::
                (List.range 4).flatMap (fun i =>
                  [TeardownAction.printShutdown i,
                   TeardownAction.joinThread i])).map DriverAction.pool) ∧
      (mainTrace conns).filter DriverAction.isAccept =
        (conns.take 2).map DriverAction.acceptConn ∧
      ((mainTrace conns).filter DriverAction.isAccept).length = 2 ∧
      (∀ c : Nat, DriverAction.acceptConn c ∈ mainTrace conns →
         c ∈ conns.take 2) := by
  intro conns hlen
  have htrace : mainTrace conns =
      DriverAction.bindListener :: DriverAction.newPool 4 ::
        ((conns.take 2).flatMap (fun c =>
            [DriverAction.acceptConn c, DriverAction.submitJob c,
             DriverAction.printDriver]) ++
          (TeardownAction.releaseSender ::
              (List.range 4).flatMap (fun i =>
                [TeardownAction.printShutdown i,
                 TeardownAction.joinThread i])).map DriverAction.pool) := rfl
  have hfilter : (mainTrace conns).filter DriverAction.isAccept =
      (conns.take 2).map DriverAction.acceptConn := by
    rw [htrace]
    simp [List.filter_cons, List.filter_append, DriverAction.isAccept,
      filter_isAccept_conns, filter_isAccept_pool]
  refine ⟨htrace, hfilter, ?_, ?_⟩
  · rw [hfilter]
    simp [List.length_take]
    omega
  · intro c hc
    rw [htrace] at hc
    rcases List.mem_cons.mp hc with h1 | hc2
    · exact DriverAction.noConfusion h1
    rcases List.mem_cons.mp hc2 with h1 | hc3
    · exact DriverAction.noConfusion h1
    rcases List.mem_append.mp hc3 with h1 | h1
    · rcases List.mem_flatMap.mp h1 with ⟨a, ha, hmem⟩
      simp at hmem
      rw [hmem]
      exact ha
    · rcases List.mem_map.mp h1 with ⟨a, _, heq⟩
      exact DriverAction.noConfusion heq

/-- C1.  In any run of a pool of positive size, if teardown has fully
completed (sender gone, every worker cleanly stopped) then the queue has
drained and the delivery log lists exactly the submitted jobs, each
delivered exactly once, in submission order, each to a single worker of
the pool; and closure can only ever be observed (a worker newly turning
stopped) on an empty queue with no sender. -/
theorem submitted_jobs_all_executed_before_teardown_completes :
    ∀ (size : Nat) (s : SysState), 0 < size →
      Reaches (initState size) s → TeardownComplete s →
      s.queue = [] ∧
      s.log.map Prod.snd = s.submitted.map Job.id ∧
      (∀ e ∈ s.log, e.1 < s.size) ∧
      (∀ (t u : SysState) (i : Nat), Step t u →
         t.wphase i ≠ WPhase.stopped → u.wphase i = WPhase.stopped →
         t.queue = [] ∧ t.senderAlive = false) := by
  intro size s hpos hreach htc
  have hI := reach_sysInv hreach
  have hsize : s.size = size := reaches_size hreach
  have hstop0 : s.wphase 0 = WPhase.stopped := htc.2 0 (by rw [hsize]; exact hpos)
  have hq : s.queue = [] := (hI.stoppedDrained 0 hstop0).2
  refine ⟨hq, ?_, hI.logBound, ?_⟩
  · have h2 := hI.acct
    rw [hq] at h2
    simpa using h2.symm
  · intro t u i hstep hnot hyes
    cases hstep with
    | submit j hs => exact absurd hyes hnot
    | dropSender hs => exact absurd hyes hnot
    | acquire i2 hi hw hl =>
      by_cases hk : i = i2
      · subst hk
        simp [updW] at hyes
      · have h2 : t.wphase i = WPhase.stopped := by
          simpa [updW, hk] using hyes
        exact absurd h2 hnot
    | recvOk i2 j rest hi hw hl hq2 =>
      by_cases hk : i = i2
      · subst hk
        simp [updW] at hyes
      · have h2 : t.wphase i = WPhase.stopped := by
          simpa [updW, hk] using hyes
        exact absurd h2 hnot
    | recvClosed i2 hi hw hl hq2 hs2 => exact ⟨hq2, hs2⟩
    | finishOk i2 j hi hw hp =>
      by_cases hk : i = i2
      · subst hk
        simp [updW] at hyes
      · have h2 : t.wphase i = WPhase.stopped := by
          simpa [updW, hk] using hyes
        exact absurd h2 hnot
    | finishPanic i2 j hi hw hp =>
      by_cases hk : i = i2
      · subst hk
        simp [updW] at hyes
      · have h2 : t.wphase i = WPhase.stopped := by
          simpa [updW, hk] using hyes
        exact absurd h2 hnot

/-- C4.  Every step moves every worker along the loop of Worker.new
only: waiting into the lock, receiving into executing an obtained job or
into stopped on closure, executing back to waiting only when the job
completes (or to dead when it unwinds) — and a stopped worker stays
stopped forever and performs no further dequeue: its delivery log never
grows again. -/
theorem worker_loop_state_machine :
    (∀ (s t : SysState), Step s t → ∀ i : Nat,
       wTransB (s.wphase i) (t.wphase i) = true) ∧
    (∀ (s t : SysState), Relation.ReflTransGen Step s t → ∀ i : Nat,
       s.wphase i = WPhase.stopped →
       t.wphase i = WPhase.stopped ∧ logOf t i = logOf s i) :=
  ⟨fun _ _ h i => step_wTrans h i,
   fun _ _ h i hstop => steps_stopped_frozen h i hstop⟩

/-- C6.  In every reachable state the receiver mutex is held only by a
worker inside the single recv call, never by an executing worker; and a
waiting worker can always enter recv whenever the lock is free,
regardless of what any other worker is executing. -/
theorem receiver_lock_scoped_to_recv_only :
    ∀ (size : Nat) (s : SysState), Reaches (initState size) s →
      (∀ i, s.lockHolder = some i → s.wphase i = WPhase.receiving) ∧
      (∀ i j, s.wphase i = WPhase.executing j → s.lockHolder ≠ some i) ∧
      (∀ k, k < s.size → s.wphase k = WPhase.waiting → s.lockHolder = none →
         Step s { s with wphase := updW s.wphase k WPhase.receiving,
                         lockHolder := some k }) := by
  intro size s hreach
  have hI := reach_sysInv hreach
  refine ⟨fun i h => (hI.lockRecv i).mp h, ?_, ?_⟩
  · intro i j hexec hlock
    have h2 := (hI.lockRecv i).mp hlock
    rw [hexec] at h2
    exact WPhase.noConfusion h2
  · intro k hk hw hl
    exact Step.acquire k hk hw hl

/-- C9.  A job that unwinds kills its worker thread (such a step always
exists), and a dead worker is permanent: over any number of further
steps it stays dead, the pool never changes size (no respawn or
replacement exists), and the dead worker obtains no further jobs — one
unit of concurrency is lost forever. -/
theorem panicked_worker_is_never_replaced :
    (∀ (s : SysState) (i : Nat) (j : Job), i < s.size →
       s.wphase i = WPhase.executing j → j.panics = true →
       Step s { s with wphase := updW s.wphase i WPhase.panicked }) ∧
    (∀ (s t : SysState), Relation.ReflTransGen Step s t → ∀ i : Nat,
       s.wphase i = WPhase.panicked →
       t.wphase i = WPhase.panicked ∧ t.size = s.size ∧
       logOf t i = logOf s i) := by
  constructor
  · intro s i j hi hw hp
    exact Step.finishPanic i j hi hw hp
  · intro s t h i hpan
    obtain ⟨h1, h2⟩ := steps_panicked_frozen h i hpan
    exact ⟨h1, reaches_size h, h2⟩

/-- Concrete run: the submission step. -/
theorem step_ws01 : Step ws0 ws1 :=
  Step.submit wjob rfl

/-- Concrete run: teardown begins. -/
theorem step_ws12 : Step ws1 ws2 :=
  Step.dropSender rfl

/-- Concrete run: worker zero takes the lock. -/
theorem step_ws23 : Step ws2 ws3 :=
  Step.acquire 0 Nat.one_pos rfl rfl

/-- Concrete run: recv hands over the job. -/
theorem step_ws34 : Step ws3 ws4 :=
  Step.recvOk 0 wjob [] Nat.one_pos rfl rfl rfl

/-- Concrete run: the job completes. -/
theorem step_ws45 : Step ws4 ws5 :=
  Step.finishOk 0 wjob Nat.one_pos rfl rfl

/-- Concrete run: worker zero takes the lock again. -/
theorem step_ws56 : Step ws5 ws6 :=
  Step.acquire 0 Nat.one_pos rfl rfl

/-- Concrete run: recv observes closure, worker zero stops. -/
theorem step_ws67 : Step ws6 ws7 :=
  Step.recvClosed 0 Nat.one_pos rfl rfl rfl rfl

/-- Concrete run up to the executing state. -/
theorem reach_ws4 : Reaches (initState 1) ws4 :=
  Relation.ReflTransGen.tail
    (Relation.ReflTransGen.tail
      (Relation.ReflTransGen.tail
        (Relation.ReflTransGen.tail Relation.ReflTransGen.refl step_ws01)
        step_ws12)
      step_ws23)
    step_ws34

/-- Concrete run up to full termination. -/
theorem reach_ws7 : Reaches (initState 1) ws7 :=
  Relation.ReflTransGen.tail
    (Relation.ReflTransGen.tail
      (Relation.ReflTransGen.tail reach_ws4 step_ws45)
      step_ws56)
    step_ws67

/-- In the final state of the concrete run teardown is complete. -/
theorem tc_ws7 : TeardownComplete ws7 := by
  refine ⟨rfl, ?_⟩
  intro i hi
  have h1 : i = 0 := Nat.lt_one_iff.mp hi
  subst h1
  rfl

/-- Witness for C1 on a concrete run: one pool of one worker, one
submitted job, run to completed teardown. -/
theorem submitted_jobs_all_executed_before_teardown_completes_witness :
    ws7.queue = [] ∧ ws7.log.map Prod.snd = ws7.submitted.map Job.id :=
  ⟨(submitted_jobs_all_executed_before_teardown_completes 1 ws7 Nat.one_pos
      reach_ws7 tc_ws7).1,
   (submitted_jobs_all_executed_before_teardown_completes 1 ws7 Nat.one_pos
      reach_ws7 tc_ws7).2.1⟩

/-- Witness for C2 on the pool of three workers. -/
theorem drop_releases_sender_once_then_joins_in_id_order_witness :
    (ThreadPool.drop p3w).1 =
      TeardownAction.releaseSender ::
        (List.range 3).flatMap (fun i =>
          [TeardownAction.printShutdown i, TeardownAction.joinThread i]) ∧
    ((ThreadPool.drop p3w).1.filter TeardownAction.isRelease).length = 1 ∧
    (ThreadPool.drop p3w).1.filter TeardownAction.isJoin =
      (List.range 3).map TeardownAction.joinThread ∧
    (ThreadPool.drop p3w).2.sender = none :=
  drop_releases_sender_once_then_joins_in_id_order 3 p3w ch0w rfl

/-- Witness for C3 on the pool of one worker and the empty channel. -/
theorem execute_cannot_fail_while_pool_alive_witness :
    (p1w.sender = some () ∧ ch0w.receiverAlive = true) ∧
    ThreadPool.execute p1w ch0w wjob =
      RustOutcome.ok (p1w, { ch0w with queue := ch0w.queue ++ [wjob] }) :=
  ⟨execute_cannot_fail_while_pool_alive.1 1 p1w ch0w rfl,
   execute_cannot_fail_while_pool_alive.2 p1w ch0w wjob rfl rfl⟩

/-- Witness for C4 on the concrete delivery step and on a stopped
state. -/
theorem worker_loop_state_machine_witness :
    wTransB (ws3.wphase 0) (ws4.wphase 0) = true ∧
    wsStop.wphase 0 = WPhase.stopped ∧ logOf wsStop 0 = logOf wsStop 0 :=
  ⟨worker_loop_state_machine.1 ws3 ws4 step_ws34 0,
   worker_loop_state_machine.2 wsStop wsStop Relation.ReflTransGen.refl 0 rfl⟩

/-- Witness for C5 at size three, plus one concrete step preserving the
size. -/
theorem new_makes_size_workers_stable_ids_witness :
    (∃ pc, ThreadPool.new 3 = RustOutcome.ok pc) ∧
    p3w.workers.length = 3 ∧
    p3w.workers.map Worker.id = List.range 3 ∧
    ws1.size = ws0.size :=
  ⟨new_makes_size_workers_stable_ids.1 3 (by decide),
   (new_makes_size_workers_stable_ids.2.1 3 p3w ch0w rfl).1,
   (new_makes_size_workers_stable_ids.2.1 3 p3w ch0w rfl).2.1,
   new_makes_size_workers_stable_ids.2.2 ws0 ws1 step_ws01⟩

/-- Witness for C6 on the reachable state whose worker is executing. -/
theorem receiver_lock_scoped_to_recv_only_witness :
    ws4.wphase 0 = WPhase.executing wjob ∧ ws4.lockHolder ≠ some 0 :=
  ⟨rfl, (receiver_lock_scoped_to_recv_only 1 ws4 reach_ws4).2.1 0 wjob rfl⟩

/-- Witness for C7: size one passes the assert and the returned pool
accepts a submission. -/
theorem new_zero_is_fatal_new_positive_ready_witness :
    (∃ pc, ThreadPool.new 1 = RustOutcome.ok pc) ∧
    ThreadPool.execute p1w ch0w wjob =
      RustOutcome.ok (p1w, { ch0w with queue := ch0w.queue ++ [wjob] }) :=
  ⟨new_zero_is_fatal_new_positive_ready.2.1 1 Nat.one_pos,
   new_zero_is_fatal_new_positive_ready.2.2 1 p1w ch0w wjob rfl⟩

/-- Witness for C8 on a pool whose sender has been released. -/
theorem execute_after_teardown_panics_witness :
    (ThreadPool.drop p1w).2.sender = none ∧
    ThreadPool.execute pDeadw ch0w wjob = RustOutcome.panicked :=
  ⟨execute_after_teardown_panics.1 p1w,
   (execute_after_teardown_panics.2 pDeadw ch0w wjob rfl).1⟩

/-- Witness for C9: the unwinding job kills worker zero, and a dead
worker state is preserved. -/
theorem panicked_worker_is_never_replaced_witness :
    Step wsExecP
      { wsExecP with wphase := updW wsExecP.wphase 0 WPhase.panicked } ∧
    wsPan.wphase 0 = WPhase.panicked :=
  ⟨panicked_worker_is_never_replaced.1 wsExecP 0 wpjob Nat.one_pos rfl rfl,
   (panicked_worker_is_never_replaced.2 wsPan wsPan
      Relation.ReflTransGen.refl 0 rfl).1⟩

/-- Witness for C10 on a stream of three connections. -/
theorem main_accepts_two_connections_then_drops_pool_witness :
    (mainTrace [10, 20, 30]).filter DriverAction.isAccept =
      (([10, 20, 30] : List Nat).take 2).map DriverAction.acceptConn ∧
    ((mainTrace [10, 20, 30]).filter DriverAction.isAccept).length = 2 :=
  ⟨(main_accepts_two_connections_then_drops_pool [10, 20, 30] (by decide)).2.1,
   (main_accepts_two_connections_then_drops_pool [10, 20, 30] (by decide)).2.2.1⟩
